import Mathlib

/-!
Verification of the corsair_lcd_tool repository's device transport
(`CorsairCommand`, `UpdateDeviceThread.make_commands`) and LED controller
(`LEDController.analyze_and_set_colors`, `connect_to_openrgb`,
`LEDWorker.set_colors`) against the natural-language specification.

Bytes are modelled as `List ℕ` (each element a byte value); Python ints as
`ℕ`/`ℤ`; Python floats as `ℚ` (all float computations relevant to the claims
are exact at the inputs the claims quantify over, see the comments at each
definition).
-/

/-- Mirrors the `CorsairCommand` dataclass of src/corsair_lcd_tool.py
(lines 33-66): opcode, two constant bytes, end flag, 16-bit part number,
16-bit data length, and the (padded) data block. -/
structure CorsairCommand where
  opcode : ℕ
  unknown1 : ℕ
  unknown2 : ℕ
  is_end : Bool
  part_num : ℕ
  datalen : ℕ
  data : List ℕ
  deriving Repr, DecidableEq

/-- `CorsairCommand.HEADER_SIZE` (source line 43). -/
def CorsairCommand.HEADER_SIZE : ℕ := 8

/-- Little-endian 2-byte encoding, modelling Python's
`n.to_bytes(2, byteorder='little')`; `none` models the `OverflowError`
raised when `n ≥ 2^16`. -/
def toBytesLE2 (n : ℕ) : Option (List ℕ) :=
  if n < 65536 then some [n % 256, n / 256] else none

/-- Mirrors `CorsairCommand.to_bytes` (source lines 45-54): header byte 0 is
the opcode, bytes 1-2 the two constants, byte 3 the end flag, bytes 4-5 the
part number little-endian, bytes 6-7 the data length little-endian, then the
data block.  `none` models the exceptions Python raises when a header byte is
out of 0..255 or a 16-bit field overflows. -/
def CorsairCommand.to_bytes (c : CorsairCommand) : Option (List ℕ) :=
  if c.opcode < 256 ∧ c.unknown1 < 256 ∧ c.unknown2 < 256 then
    match toBytesLE2 c.part_num, toBytesLE2 c.datalen with
    | some p, some d =>
        some ([c.opcode, c.unknown1, c.unknown2, if c.is_end then 1 else 0]
              ++ p ++ d ++ c.data)
    | _, _ => none
  else none

/-- Mirrors the loop body sequence of `UpdateDeviceThread.make_commands`
(source lines 111-134), with `rml` the computed `real_max_len` and `fuel`
bounding the number of iterations.  The source's `while data:` loop consumes
at least one byte per iteration whenever `rml ≥ 1`, so `fuel = data.length`
iterations always suffice there (the adequacy is witnessed by the round-trip
theorem below); for `rml = 0` the source loop would not terminate, and no
theorem below applies the function in that regime. -/
def makeCommandsAux (opcode rml : ℕ) : ℕ → ℕ → List ℕ → List CorsairCommand
  | _, _, [] => []
  | 0, _, _ :: _ => []
  | fuel + 1, partNum, b :: rest =>
      let data := b :: rest
      let padded := data.take rml ++ List.replicate (rml - data.length) 0
      { opcode := opcode
        unknown1 := 0x05
        unknown2 := 0x40
        is_end := (data.drop rml).isEmpty
        part_num := partNum
        datalen := min rml data.length
        data := padded } :: makeCommandsAux opcode rml fuel (partNum + 1) (data.drop rml)

/-- Mirrors `UpdateDeviceThread.make_commands(data, opcode=0x02, max_len=1024)`
(source lines 111-134): `real_max_len = max_len - HEADER_SIZE`, the payload is
cut into `real_max_len`-byte chunks, each zero-padded to `real_max_len`,
`datalen` records the unpadded chunk length, `part_num` counts from 0, and
`is_end` is set exactly when no payload remains. -/
def make_commands (data : List ℕ) (opcode maxLen : ℕ) : List CorsairCommand :=
  makeCommandsAux opcode (maxLen - CorsairCommand.HEADER_SIZE) data.length 0 data

/-- The reassembled payload: each packet's data truncated to its `datalen`,
concatenated in the order the packets are produced. -/
def reassemble (cmds : List CorsairCommand) : List ℕ :=
  (cmds.map (fun c => c.data.take c.datalen)).flatten

/-- The packet emitted on the `i`-th iteration of the `make_commands` loop,
expressed directly in terms of the original payload: on iteration `i` the
remaining payload is `data.drop (i * rml)`, of length `data.length - i * rml`. -/
def packetAt (opcode rml : ℕ) (data : List ℕ) (partNum0 i : ℕ) : CorsairCommand :=
  { opcode := opcode
    unknown1 := 0x05
    unknown2 := 0x40
    is_end := decide (data.length ≤ (i + 1) * rml)
    part_num := partNum0 + i
    datalen := min rml (data.length - i * rml)
    data := (data.drop (i * rml)).take rml
            ++ List.replicate (rml - (data.length - i * rml)) 0 }

/-- Number of chunks a payload of `n` bytes is cut into, `⌈n / rml⌉`. -/
def numPackets (rml n : ℕ) : ℕ := (n + rml - 1) / rml

lemma makeCommandsAux_nil (op rml fuel p : ℕ) :
    makeCommandsAux op rml fuel p [] = [] := by
  cases fuel <;> rfl

lemma numPackets_zero (rml : ℕ) : numPackets rml 0 = 0 := by
  unfold numPackets
  rcases Nat.eq_zero_or_pos rml with h | h
  · subst h; rfl
  · apply Nat.div_eq_of_lt; omega

lemma numPackets_succ (rml n : ℕ) (hr : 1 ≤ rml) (hn : 1 ≤ n) :
    numPackets rml n = numPackets rml (n - rml) + 1 := by
  unfold numPackets
  rcases le_or_lt n rml with h | h
  · have h1 : n + rml - 1 = (n - 1) + rml := by omega
    have h2 : n - rml + rml - 1 = rml - 1 := by omega
    rw [h1, h2, Nat.add_div_right _ hr, Nat.div_eq_of_lt (by omega),
      Nat.div_eq_of_lt (by omega)]
  · have h1 : n + rml - 1 = (n - rml + rml - 1) + rml := by omega
    rw [h1, Nat.add_div_right _ hr]

lemma packetAt_shift (op rml : ℕ) (data : List ℕ) (p i : ℕ) :
    packetAt op rml data p (i + 1) = packetAt op rml (data.drop rml) (p + 1) i := by
  have hlen : (data.drop rml).length = data.length - rml := List.length_drop _ _
  have hmul : (i + 1 + 1) * rml = (i + 1) * rml + rml := by ring
  have hmul2 : (i + 1) * rml = rml + i * rml := by ring
  have hdl : data.length - rml - i * rml = data.length - (i + 1) * rml := by
    rw [Nat.sub_sub, ← hmul2]
  have hend : (decide (data.length - rml ≤ (i + 1) * rml))
      = (decide (data.length ≤ (i + 1 + 1) * rml)) := by
    apply decide_eq_decide.mpr
    rw [hmul]
    generalize (i + 1) * rml = k
    omega
  have hdrop : (data.drop rml).drop (i * rml) = data.drop ((i + 1) * rml) := by
    rw [List.drop_drop, ← hmul2]
  have hp : p + (i + 1) = p + 1 + i := by omega
  unfold packetAt
  rw [hlen, hend, hdl, hdrop, hp]

lemma makeCommandsAux_eq (op rml : ℕ) (hr : 1 ≤ rml) :
    ∀ fuel data p, data.length ≤ fuel →
      makeCommandsAux op rml fuel p data
        = (List.range (numPackets rml data.length)).map (packetAt op rml data p) := by
  intro fuel
  induction fuel with
  | zero =>
    intro data p h
    have hd : data = [] := List.length_eq_zero.mp (Nat.le_zero.mp h)
    subst hd
    simp [makeCommandsAux_nil, numPackets_zero]
  | succ m ih =>
    intro data p h
    cases data with
    | nil => simp [makeCommandsAux_nil, numPackets_zero]
    | cons b rest =>
      have hn : 1 ≤ (b :: rest).length := by simp
      rw [numPackets_succ rml _ hr hn, List.range_succ_eq_map, List.map_cons,
        List.map_map]
      have hdrop : ((b :: rest).drop rml).length = (b :: rest).length - rml :=
        List.length_drop _ _
      have hm : ((b :: rest).drop rml).length ≤ m := by
        rw [hdrop]; simp at h ⊢; omega
      have htail := ih ((b :: rest).drop rml) (p + 1) hm
      show makeCommandsAux op rml (m + 1) p (b :: rest) = _
      rw [makeCommandsAux, htail, hdrop]
      congr 1
      · have hend : (List.drop rml (b :: rest)).isEmpty
            = decide ((b :: rest).length ≤ (0 + 1) * rml) := by
          rw [Bool.eq_iff_iff, List.isEmpty_iff, decide_eq_true_iff,
            List.drop_eq_nil_iff]
          simp
        unfold packetAt
        rw [hend]
        simp
      · apply List.map_congr_left
        intro i _
        show packetAt op rml (List.drop rml (b :: rest)) (p + 1) i
            = packetAt op rml (b :: rest) p (i + 1)
        rw [packetAt_shift]

lemma reassemble_cons (c : CorsairCommand) (cs : List CorsairCommand) :
    reassemble (c :: cs) = c.data.take c.datalen ++ reassemble cs := by
  simp [reassemble]

lemma makeCommandsAux_reassemble (op rml : ℕ) (hr : 1 ≤ rml) :
    ∀ fuel data p, data.length ≤ fuel →
      reassemble (makeCommandsAux op rml fuel p data) = data := by
  intro fuel
  induction fuel with
  | zero =>
    intro data p h
    have hd : data = [] := List.length_eq_zero.mp (Nat.le_zero.mp h)
    subst hd
    simp [makeCommandsAux_nil, reassemble]
  | succ m ih =>
    intro data p h
    cases data with
    | nil => simp [makeCommandsAux_nil, reassemble]
    | cons b rest =>
      have hm : (List.drop rml (b :: rest)).length ≤ m := by
        simp at h ⊢; omega
      rw [makeCommandsAux, reassemble_cons, ih _ (p + 1) hm]
      rcases le_or_lt (b :: rest).length rml with hle | hlt
      · have h1 : List.take rml (b :: rest) = b :: rest :=
          List.take_of_length_le hle
        have h2 : min rml (b :: rest).length = (b :: rest).length := by omega
        have h3 : List.drop rml (b :: rest) = [] := List.drop_eq_nil_iff.mpr hle
        simp only [h1, h2, h3, List.append_nil]
        exact List.take_left' rfl
      · have h2 : min rml (b :: rest).length = rml := by omega
        have h4 : rml - (b :: rest).length = 0 := by omega
        simp only [h2, h4, List.replicate_zero, List.append_nil, List.take_take,
          min_self]
        exact List.take_append_drop rml (b :: rest)

lemma make_commands_eq (data : List ℕ) (op S : ℕ) (hS : 8 < S) :
    make_commands data op S
      = (List.range (numPackets (S - 8) data.length)).map
          (packetAt op (S - 8) data 0) := by
  unfold make_commands CorsairCommand.HEADER_SIZE
  exact makeCommandsAux_eq op (S - 8) (by omega) data.length data 0 le_rfl

lemma make_commands_length (data : List ℕ) (op S : ℕ) (hS : 8 < S) :
    (make_commands data op S).length = numPackets (S - 8) data.length := by
  rw [make_commands_eq _ _ _ hS]
  simp

lemma make_commands_part_num (data : List ℕ) (op S : ℕ) (hS : 8 < S) :
    (make_commands data op S).map CorsairCommand.part_num
      = List.range (make_commands data op S).length := by
  rw [make_commands_eq _ _ _ hS, List.map_map, List.length_map, List.length_range]
  have h : ∀ i ∈ List.range (numPackets (S - 8) data.length),
      (CorsairCommand.part_num ∘ packetAt op (S - 8) data 0) i = id i := by
    intro i _
    simp [packetAt]
  rw [List.map_congr_left h, List.map_id]

lemma make_commands_reassemble (data : List ℕ) (op S : ℕ) (hS : 8 < S) :
    reassemble (make_commands data op S) = data := by
  unfold make_commands CorsairCommand.HEADER_SIZE
  exact makeCommandsAux_reassemble op (S - 8) (by omega) data.length data 0 le_rfl

/-- C1: for every non-empty byte payload `P` and every packet size `S > 8`,
the packets of `make_commands(P, max_len=S)` come out in `part_num` order
(the produced order carries `part_num = 0, 1, 2, …`), and truncating each
packet's data to its `datalen` and concatenating reproduces `P` exactly. -/
theorem C1_make_commands_roundtrip (P : List ℕ) (S : ℕ) (hP : P ≠ []) (hS : 8 < S) :
    ((make_commands P 2 S).map CorsairCommand.part_num
        = List.range (make_commands P 2 S).length)
    ∧ reassemble (make_commands P 2 S) = P :=
  ⟨make_commands_part_num P 2 S hS, make_commands_reassemble P 2 S hS⟩

theorem C1_witness :
    (([1, 2, 3] : List ℕ) ≠ [] ∧ 8 < 10)
    ∧ (((make_commands [1, 2, 3] 2 10).map CorsairCommand.part_num
        = List.range (make_commands [1, 2, 3] 2 10).length)
      ∧ reassemble (make_commands [1, 2, 3] 2 10) = [1, 2, 3]) :=
  ⟨⟨by decide, by decide⟩, C1_make_commands_roundtrip [1, 2, 3] 10 (by decide) (by decide)⟩

/-- C9: for every opcode and packet size, `make_commands` on an empty payload
yields zero packets (the `while data:` loop is never entered). -/
theorem C9_empty_payload_no_packets (op S : ℕ) : make_commands [] op S = [] :=
  makeCommandsAux_nil op (S - CorsairCommand.HEADER_SIZE) 0 0

lemma le_numPackets_mul (rml n : ℕ) (hr : 1 ≤ rml) :
    n ≤ numPackets rml n * rml := by
  unfold numPackets
  have h1 := Nat.div_add_mod (n + rml - 1) rml
  have h2 : (n + rml - 1) % rml < rml := Nat.mod_lt _ (by omega)
  rw [Nat.mul_comm]
  set t := rml * ((n + rml - 1) / rml) with ht
  omega

lemma numPackets_mid_bound (rml n i : ℕ) (hr : 1 ≤ rml)
    (hi : i + 1 < numPackets rml n) : (i + 1) * rml < n := by
  have h1 : i + 2 ≤ (n + rml - 1) / rml := hi
  have h2 : (i + 2) * rml ≤ n + rml - 1 := (Nat.le_div_iff_mul_le (by omega)).mp h1
  have h3 : (i + 2) * rml = (i + 1) * rml + rml := by ring
  set t := (i + 1) * rml
  omega

lemma packetAt_datalen_le (op rml : ℕ) (data : List ℕ) (p i : ℕ) :
    (packetAt op rml data p i).datalen ≤ rml := by
  simp [packetAt]

lemma make_commands_datalen_le (data : List ℕ) (op S : ℕ) (hS : 8 < S) :
    ∀ c ∈ make_commands data op S, c.datalen ≤ S - 8 := by
  rw [make_commands_eq _ _ _ hS]
  intro c hc
  rcases List.mem_map.mp hc with ⟨i, _, rfl⟩
  exact packetAt_datalen_le _ _ _ _ _

lemma make_commands_dropLast_datalen (data : List ℕ) (op S : ℕ) (hS : 8 < S) :
    ∀ c ∈ (make_commands data op S).dropLast, c.datalen = S - 8 := by
  intro c hc
  rw [make_commands_eq _ _ _ hS] at hc
  rcases hn : numPackets (S - 8) data.length with _ | k0
  · rw [hn] at hc; simp at hc
  · rw [hn, List.range_succ, List.map_append, List.map_singleton,
      List.dropLast_concat] at hc
    rcases List.mem_map.mp hc with ⟨i, hi, rfl⟩
    have hik : i + 1 < numPackets (S - 8) data.length := by
      rw [hn]
      exact Nat.succ_lt_succ (List.mem_range.mp hi)
    have hlt : (i + 1) * (S - 8) < data.length :=
      numPackets_mid_bound (S - 8) data.length i (by omega) hik
    have hmul : (i + 1) * (S - 8) = i * (S - 8) + (S - 8) := by ring
    show min (S - 8) (data.length - i * (S - 8)) = S - 8
    set t := i * (S - 8)
    omega

/-- C7: for every payload and packet size `S > 8` (so that the chunk size
`S − 8` is positive and the source loop terminates), every packet produced by
`make_commands` except possibly the last has `datalen = S − 8`, and every
packet (including the last) has `datalen ≤ S − 8`. -/
theorem C7_datalen_bounds (P : List ℕ) (S : ℕ) (hS : 8 < S) :
    (∀ c ∈ (make_commands P 2 S).dropLast, c.datalen = S - 8)
    ∧ (∀ c ∈ make_commands P 2 S, c.datalen ≤ S - 8) :=
  ⟨make_commands_dropLast_datalen P 2 S hS, make_commands_datalen_le P 2 S hS⟩

theorem C7_witness :
    8 < 10
    ∧ ((∀ c ∈ (make_commands [1, 2, 3] 2 10).dropLast, c.datalen = 10 - 8)
      ∧ (∀ c ∈ make_commands [1, 2, 3] 2 10, c.datalen ≤ 10 - 8)) :=
  ⟨by decide, C7_datalen_bounds [1, 2, 3] 10 (by decide)⟩

lemma make_commands_is_end_pattern (data : List ℕ) (op S : ℕ) (hd : data ≠ [])
    (hS : 8 < S) :
    (make_commands data op S).map CorsairCommand.is_end
      = List.replicate ((make_commands data op S).length - 1) false ++ [true] := by
  have hr : 1 ≤ S - 8 := by omega
  have hk : 1 ≤ numPackets (S - 8) data.length := by
    have hn : 1 ≤ data.length := by
      cases data with
      | nil => exact absurd rfl hd
      | cons b rest => simp
    rw [numPackets_succ (S - 8) data.length hr hn]
    omega
  rw [make_commands_eq _ _ _ hS, List.map_map, List.length_map, List.length_range]
  apply List.ext_getElem
  · simp
    omega
  · intro i h1 h2
    rw [List.getElem_map, List.getElem_range]
    simp only [Function.comp, packetAt]
    simp only [List.length_map, List.length_range] at h1
    rcases lt_or_ge i (numPackets (S - 8) data.length - 1) with h | h
    · rw [List.getElem_append_left (by simpa using h)]
      rw [List.getElem_replicate]
      have hlt : (i + 1) * (S - 8) < data.length :=
        numPackets_mid_bound (S - 8) data.length i hr (by omega)
      simp only [decide_eq_false_iff_not]
      omega
    · have hi : i = numPackets (S - 8) data.length - 1 := by omega
      rw [List.getElem_append_right (by simpa using h)]
      have hle := le_numPackets_mul (S - 8) data.length hr
      have hmul : numPackets (S - 8) data.length * (S - 8) = (i + 1) * (S - 8) := by
        rw [hi]
        congr 1
        omega
      simp only [List.length_replicate]
      rw [List.getElem_singleton]
      simp only [decide_eq_true_iff]
      omega

lemma example2000_eq :
    make_commands (List.replicate 2000 65) 2 1024
      = [packetAt 2 1016 (List.replicate 2000 65) 0 0,
         packetAt 2 1016 (List.replicate 2000 65) 0 1] := by
  have h8 : (1024 : ℕ) - 8 = 1016 := by norm_num
  have hlen : (List.replicate 2000 (65 : ℕ)).length = 2000 :=
    List.length_replicate _ _
  have hk : numPackets 1016 2000 = 2 := by norm_num [numPackets]
  have hr : List.range 2 = [0, 1] := by decide
  rw [make_commands_eq _ _ _ (by norm_num), h8, hlen, hk, hr]
  simp only [List.map_cons, List.map_nil]

lemma example2000_fields :
    (make_commands (List.replicate 2000 65) 2 1024).map CorsairCommand.part_num
        = [0, 1]
    ∧ (make_commands (List.replicate 2000 65) 2 1024).map CorsairCommand.datalen
        = [1016, 984]
    ∧ (make_commands (List.replicate 2000 65) 2 1024).map CorsairCommand.is_end
        = [false, true] := by
  rw [example2000_eq]
  refine ⟨?_, ?_, ?_⟩ <;> norm_num [packetAt]

lemma example2000_padding :
    (make_commands (List.replicate 2000 65) 2 1024).map
        (fun c => c.data.drop c.datalen) = [[], List.replicate 32 0] := by
  have hlen : (List.replicate 2000 (65 : ℕ)).length = 2000 :=
    List.length_replicate _ _
  have p0 : ((packetAt 2 1016 (List.replicate 2000 65) 0 0).data.drop
      (packetAt 2 1016 (List.replicate 2000 65) 0 0).datalen) = [] := by
    simp only [packetAt, hlen]
    norm_num
  have p1 : ((packetAt 2 1016 (List.replicate 2000 65) 0 1).data.drop
      (packetAt 2 1016 (List.replicate 2000 65) 0 1).datalen) = List.replicate 32 0 := by
    simp only [packetAt, hlen]
    norm_num
  rw [example2000_eq]
  simp only [List.map_cons, List.map_nil]
  rw [p0, p1]

/-- C2 counterexample: in the claimed example (2000-byte payload, packet size
1024) the final packet's zero padding is 1016 − 984 = 32 bytes, not the
claimed 40 bytes (40 = 1024 − 984 ignores the 8-byte header). -/
theorem C2_counterexample :
    (make_commands (List.replicate 2000 65) 2 1024).map
        (fun c => c.data.drop c.datalen) = [[], List.replicate 32 0]
    ∧ (List.replicate 32 (0 : ℕ)).length = 32
    ∧ (32 : ℕ) ≠ 40 :=
  ⟨example2000_padding, List.length_replicate _ _, by decide⟩

/-- C2 (amended): for every non-empty payload `P` and packet size `S > 8`,
`make_commands(P, max_len=S)` produces exactly `⌈len(P) / (S−8)⌉` packets,
numbered with consecutive `part_num` starting at 0, and the last packet (and
only the last) has `is_end = true`; in particular a 2000-byte payload with
`S = 1024` yields 2 packets with `(part_num=0, datalen=1016, is_end=false)`
and `(part_num=1, datalen=984, is_end=true, 32 zero padding bytes)`. -/
theorem C2_make_commands_packets (P : List ℕ) (S : ℕ) (hP : P ≠ []) (hS : 8 < S) :
    (make_commands P 2 S).length = (P.length + (S - 8) - 1) / (S - 8)
    ∧ (make_commands P 2 S).map CorsairCommand.part_num
        = List.range (make_commands P 2 S).length
    ∧ (make_commands P 2 S).map CorsairCommand.is_end
        = List.replicate ((make_commands P 2 S).length - 1) false ++ [true]
    ∧ (make_commands (List.replicate 2000 65) 2 1024).map CorsairCommand.part_num
        = [0, 1]
    ∧ (make_commands (List.replicate 2000 65) 2 1024).map CorsairCommand.datalen
        = [1016, 984]
    ∧ (make_commands (List.replicate 2000 65) 2 1024).map CorsairCommand.is_end
        = [false, true]
    ∧ (make_commands (List.replicate 2000 65) 2 1024).map
        (fun c => c.data.drop c.datalen) = [[], List.replicate 32 0] :=
  ⟨make_commands_length P 2 S hS, make_commands_part_num P 2 S hS,
    make_commands_is_end_pattern P 2 S hP hS, example2000_fields.1,
    example2000_fields.2.1, example2000_fields.2.2, example2000_padding⟩

theorem C2_witness :
    (([1, 2, 3] : List ℕ) ≠ [] ∧ 8 < 10)
    ∧ ((make_commands [1, 2, 3] 2 10).length = (3 + (10 - 8) - 1) / (10 - 8)
      ∧ (make_commands [1, 2, 3] 2 10).map CorsairCommand.part_num
          = List.range (make_commands [1, 2, 3] 2 10).length
      ∧ (make_commands [1, 2, 3] 2 10).map CorsairCommand.is_end
          = List.replicate ((make_commands [1, 2, 3] 2 10).length - 1) false
            ++ [true]) := by
  have h := C2_make_commands_packets [1, 2, 3] 10 (by decide) (by decide)
  exact ⟨⟨by decide, by decide⟩, h.1, h.2.1, h.2.2.1⟩

lemma to_bytes_eq (c : CorsairCommand) (hop : c.opcode < 256) (h1 : c.unknown1 < 256)
    (h2 : c.unknown2 < 256) (hpn : c.part_num < 65536) (hdl : c.datalen < 65536) :
    c.to_bytes = some ([c.opcode, c.unknown1, c.unknown2,
      if c.is_end then 1 else 0, c.part_num % 256, c.part_num / 256,
      c.datalen % 256, c.datalen / 256] ++ c.data) := by
  unfold CorsairCommand.to_bytes toBytesLE2
  rw [if_pos ⟨hop, h1, h2⟩, if_pos hpn, if_pos hdl]
  simp

lemma make_commands_data_length (data : List ℕ) (op S : ℕ) (hS : 8 < S) :
    ∀ c ∈ make_commands data op S, c.data.length = S - 8 := by
  rw [make_commands_eq _ _ _ hS]
  intro c hc
  rcases List.mem_map.mp hc with ⟨i, _, rfl⟩
  show ((data.drop (i * (S - 8))).take (S - 8)
      ++ List.replicate ((S - 8) - (data.length - i * (S - 8))) 0).length = S - 8
  rw [List.length_append, List.length_take, List.length_drop, List.length_replicate]
  omega

lemma make_commands_constants (data : List ℕ) (op S : ℕ) (hS : 8 < S) :
    ∀ c ∈ make_commands data op S,
      c.opcode = op ∧ c.unknown1 = 0x05 ∧ c.unknown2 = 0x40 := by
  rw [make_commands_eq _ _ _ hS]
  intro c hc
  rcases List.mem_map.mp hc with ⟨i, _, rfl⟩
  exact ⟨rfl, rfl, rfl⟩

lemma make_commands_part_num_lt (data : List ℕ) (op S : ℕ) (hS : 8 < S) :
    ∀ c ∈ make_commands data op S,
      c.part_num < numPackets (S - 8) data.length := by
  rw [make_commands_eq _ _ _ hS]
  intro c hc
  rcases List.mem_map.mp hc with ⟨i, hi, rfl⟩
  show 0 + i < numPackets (S - 8) data.length
  rw [Nat.zero_add]
  exact List.mem_range.mp hi

lemma numPackets_le_of_le (rml n B : ℕ) (hr : 1 ≤ rml) (hn : n ≤ rml * B) :
    numPackets rml n ≤ B := by
  unfold numPackets
  have h1 : n + rml - 1 < (B + 1) * rml := by
    have : (B + 1) * rml = rml * B + rml := by ring
    omega
  have h2 : (n + rml - 1) / rml < B + 1 :=
    (Nat.div_lt_iff_lt_mul (by omega)).mpr h1
  omega

/-- C3: a `CorsairCommand` whose constant header bytes carry their documented
values (`unknown1 = 0x05`, `unknown2 = 0x40`, as every packet produced by
`make_commands` does), whose 8-bit/16-bit fields are in range, and whose data
block is `S − 8` bytes serializes via `to_bytes` to exactly `S` bytes laid out
as: byte 0 = opcode, byte 1 = 0x05, byte 2 = 0x40, byte 3 = 0x01 iff `is_end`,
bytes 4-5 = `part_num` little-endian, bytes 6-7 = `datalen` little-endian,
bytes 8..S−1 = the zero-padded payload; moreover with the default packet size
1024 every packet produced from a frame (of at most 65536 chunks) serializes
to exactly 1024 bytes. -/
theorem C3_to_bytes_layout (c : CorsairCommand) (S : ℕ) (h1 : c.unknown1 = 0x05)
    (h2 : c.unknown2 = 0x40) (hop : c.opcode < 256) (hpn : c.part_num < 65536)
    (hdl : c.datalen < 65536) (hS : 8 ≤ S) (hdata : c.data.length = S - 8) :
    (∃ bs, c.to_bytes = some bs
      ∧ bs.length = S
      ∧ bs[0]? = some c.opcode
      ∧ bs[1]? = some 0x05
      ∧ bs[2]? = some 0x40
      ∧ bs[3]? = some (if c.is_end then 1 else 0)
      ∧ (bs.drop 4).take 2 = [c.part_num % 256, c.part_num / 256]
      ∧ (bs.drop 6).take 2 = [c.datalen % 256, c.datalen / 256]
      ∧ bs.drop 8 = c.data)
    ∧ (∀ P c', c' ∈ make_commands P 2 1024 → P.length ≤ 1016 * 65536 →
        ∃ bs', c'.to_bytes = some bs' ∧ bs'.length = 1024) := by
  constructor
  · refine ⟨_, to_bytes_eq c hop (by omega) (by omega) hpn hdl, ?_⟩
    rw [h1, h2]
    refine ⟨?_, rfl, rfl, rfl, rfl, ?_, ?_, ?_⟩
    · simp [hdata]
      omega
    · simp
    · simp
    · simp
  · intro P c' hc' hP
    have hS24 : (8 : ℕ) < 1024 := by norm_num
    rcases make_commands_constants P 2 1024 hS24 c' hc' with ⟨hco, hc1, hc2⟩
    have hdlen : c'.data.length = 1024 - 8 := make_commands_data_length P 2 1024 hS24 c' hc'
    have hple : numPackets (1024 - 8) P.length ≤ 65536 := by
      apply numPackets_le_of_le _ _ _ (by norm_num)
      norm_num
      omega
    have hpn' : c'.part_num < 65536 :=
      lt_of_lt_of_le (make_commands_part_num_lt P 2 1024 hS24 c' hc') hple
    have hdl' : c'.datalen < 65536 :=
      lt_of_le_of_lt (make_commands_datalen_le P 2 1024 hS24 c' hc') (by norm_num)
    refine ⟨_, to_bytes_eq c' (by omega) (by omega) (by omega) hpn' hdl', ?_⟩
    simp [hdlen]

theorem C3_witness :
    ((CorsairCommand.mk 2 5 64 true 1 2 [7, 8]).unknown1 = 0x05
      ∧ (CorsairCommand.mk 2 5 64 true 1 2 [7, 8]).unknown2 = 0x40
      ∧ (CorsairCommand.mk 2 5 64 true 1 2 [7, 8]).opcode < 256
      ∧ (CorsairCommand.mk 2 5 64 true 1 2 [7, 8]).part_num < 65536
      ∧ (CorsairCommand.mk 2 5 64 true 1 2 [7, 8]).datalen < 65536
      ∧ 8 ≤ 10
      ∧ (CorsairCommand.mk 2 5 64 true 1 2 [7, 8]).data.length = 10 - 8)
    ∧ ((∃ bs, (CorsairCommand.mk 2 5 64 true 1 2 [7, 8]).to_bytes = some bs
        ∧ bs.length = 10
        ∧ bs[0]? = some (CorsairCommand.mk 2 5 64 true 1 2 [7, 8]).opcode
        ∧ bs[1]? = some 0x05
        ∧ bs[2]? = some 0x40
        ∧ bs[3]? = some (if (CorsairCommand.mk 2 5 64 true 1 2 [7, 8]).is_end then 1 else 0)
        ∧ (bs.drop 4).take 2 = [(CorsairCommand.mk 2 5 64 true 1 2 [7, 8]).part_num % 256,
            (CorsairCommand.mk 2 5 64 true 1 2 [7, 8]).part_num / 256]
        ∧ (bs.drop 6).take 2 = [(CorsairCommand.mk 2 5 64 true 1 2 [7, 8]).datalen % 256,
            (CorsairCommand.mk 2 5 64 true 1 2 [7, 8]).datalen / 256]
        ∧ bs.drop 8 = (CorsairCommand.mk 2 5 64 true 1 2 [7, 8]).data)
      ∧ (∀ P c', c' ∈ make_commands P 2 1024 → P.length ≤ 1016 * 65536 →
          ∃ bs', c'.to_bytes = some bs' ∧ bs'.length = 1024)) :=
  ⟨⟨rfl, rfl, by decide, by decide, by decide, by decide, by decide⟩,
    C3_to_bytes_layout (CorsairCommand.mk 2 5 64 true 1 2 [7, 8]) 10 rfl rfl
      (by decide) (by decide) (by decide) (by decide) (by decide)⟩

/-- Python's `int()` applied to a (here rational-valued) float: truncation
toward zero. -/
def pyInt (x : ℚ) : ℤ :=
  if 0 ≤ x then ⌊x⌋ else -⌊-x⌋

/-- Mirrors the `RGBColor` triples used by `analyze_and_set_colors`. -/
structure RGBColor where
  red : ℤ
  green : ℤ
  blue : ℤ
  deriving Repr, DecidableEq

/-- One channel of the temporal smoothing of `analyze_and_set_colors`
(source lines 72-79): `int(prev * (1 - smoothing_factor) + sampled *
smoothing_factor)`.  At the call site `smoothing_factor` is always the
default 0.25, for which the float computation on 0..255 channel values is
exact (all intermediates are multiples of 1/4 below 2^10), so the rational
model coincides with the float semantics there. -/
def smoothChannel (α : ℚ) (prev sampled : ℤ) : ℤ :=
  pyInt ((prev : ℚ) * (1 - α) + (sampled : ℚ) * α)

/-- The smoothing update applied to one `RGBColor` (source lines 72-79). -/
def smoothColor (α : ℚ) (prev sampled : RGBColor) : RGBColor :=
  ⟨smoothChannel α prev.red sampled.red,
   smoothChannel α prev.green sampled.green,
   smoothChannel α prev.blue sampled.blue⟩

/-- `self.last_rgb_colors = [RGBColor(0, 0, 0)] * 24` (source line 26): the
persisted vector is seeded to black for all 24 LEDs at startup. -/
def last_rgb_colors_init : List RGBColor := List.replicate 24 ⟨0, 0, 0⟩

/-- One smoothing tick over the persisted 24-LED vector: every index `i` is
replaced by `smoothColor α (previous i) (sampled i)` (source lines 58, 72-79;
the loop runs `for i in range(24)`). -/
def smoothTick (α : ℚ) (prev sampled : List RGBColor) : List RGBColor :=
  List.zipWith (smoothColor α) prev sampled

/-- C4 counterexample: on the very first smoothing tick from the all-black
seed, a sampled channel value of 3 produces `int(0 * 0.75 + 3 * 0.25) =
int(0.75) = 0` on every LED, while the claimed `round` formula gives
`round(0.75) = 1`. -/
theorem C4_counterexample :
    (smoothTick (1 / 4) last_rgb_colors_init
        (List.replicate 24 ⟨3, 3, 3⟩)).map RGBColor.red
      = List.replicate 24 0
    ∧ round ((0 : ℚ) * (1 - 1 / 4) + (3 : ℚ) * (1 / 4)) = 1
    ∧ ((0 : ℤ) ≠ 1) := by
  have hch : smoothChannel (1 / 4) 0 3 = 0 := by
    unfold smoothChannel pyInt
    norm_num
  refine ⟨?_, ?_, by decide⟩
  · unfold smoothTick last_rgb_colors_init
    rw [List.zipWith_replicate, List.map_replicate]
    norm_num [smoothColor, hch]
  · have harg : (0 : ℚ) * (1 - 1 / 4) + (3 : ℚ) * (1 / 4) = 3 / 4 := by norm_num
    rw [harg, round_eq, show (3 : ℚ) / 4 + 1 / 2 = 5 / 4 by norm_num,
      Int.floor_eq_iff]
    norm_num

lemma pyInt_eq_floor (x : ℚ) (hx : 0 ≤ x) : pyInt x = ⌊x⌋ := if_pos hx

lemma smoothChannel_eq_floor (α : ℚ) (a b : ℤ) (h0 : 0 ≤ α) (h1 : α ≤ 1)
    (ha : 0 ≤ a) (hb : 0 ≤ b) :
    smoothChannel α a b = ⌊(a : ℚ) * (1 - α) + (b : ℚ) * α⌋ := by
  unfold smoothChannel
  apply pyInt_eq_floor
  have c1 : (0 : ℚ) ≤ (a : ℚ) := by exact_mod_cast ha
  have c2 : (0 : ℚ) ≤ (b : ℚ) := by exact_mod_cast hb
  have m1 : (0 : ℚ) ≤ (a : ℚ) * (1 - α) := mul_nonneg c1 (by linarith)
  have m2 : (0 : ℚ) ≤ (b : ℚ) * α := mul_nonneg c2 h0
  linarith

/-- C4 (amended): on every smoothing tick and for every LED index, the new
persisted color is `int(prev * (1 − α) + sampled * α)` per channel — Python's
`int()`, i.e. truncation toward zero, which equals the floor on the
nonnegative channel values arising here, not rounding to nearest — with
`α = 0.25`; the persisted vector is seeded to black `(0,0,0)` for all 24 LEDs
at startup. -/
theorem C4_smoothing_truncation (prev sampled : List RGBColor) (i : ℕ)
    (a b : RGBColor) (ha : prev[i]? = some a) (hb : sampled[i]? = some b)
    (har : 0 ≤ a.red) (hag : 0 ≤ a.green) (hab : 0 ≤ a.blue)
    (hbr : 0 ≤ b.red) (hbg : 0 ≤ b.green) (hbb : 0 ≤ b.blue) :
    (smoothTick (1 / 4) prev sampled)[i]?
      = some ⟨⌊(a.red : ℚ) * (1 - 1 / 4) + (b.red : ℚ) * (1 / 4)⌋,
              ⌊(a.green : ℚ) * (1 - 1 / 4) + (b.green : ℚ) * (1 / 4)⌋,
              ⌊(a.blue : ℚ) * (1 - 1 / 4) + (b.blue : ℚ) * (1 / 4)⌋⟩
    ∧ last_rgb_colors_init = List.replicate 24 ⟨0, 0, 0⟩ := by
  constructor
  · unfold smoothTick
    rw [List.getElem?_zipWith, ha, hb]
    show some (smoothColor (1 / 4) a b) = _
    unfold smoothColor
    rw [smoothChannel_eq_floor _ _ _ (by norm_num) (by norm_num) har hbr,
      smoothChannel_eq_floor _ _ _ (by norm_num) (by norm_num) hag hbg,
      smoothChannel_eq_floor _ _ _ (by norm_num) (by norm_num) hab hbb]
  · rfl

theorem C4_witness :
    ((List.replicate 24 (RGBColor.mk 0 0 0))[0]? = some (RGBColor.mk 0 0 0)
      ∧ (List.replicate 24 (RGBColor.mk 3 4 5))[0]? = some (RGBColor.mk 3 4 5)
      ∧ (0 : ℤ) ≤ 0 ∧ (0 : ℤ) ≤ 3)
    ∧ ((smoothTick (1 / 4) (List.replicate 24 (RGBColor.mk 0 0 0))
          (List.replicate 24 (RGBColor.mk 3 4 5)))[0]?
        = some ⟨⌊((RGBColor.mk 0 0 0).red : ℚ) * (1 - 1 / 4)
                  + ((RGBColor.mk 3 4 5).red : ℚ) * (1 / 4)⌋,
                ⌊((RGBColor.mk 0 0 0).green : ℚ) * (1 - 1 / 4)
                  + ((RGBColor.mk 3 4 5).green : ℚ) * (1 / 4)⌋,
                ⌊((RGBColor.mk 0 0 0).blue : ℚ) * (1 - 1 / 4)
                  + ((RGBColor.mk 3 4 5).blue : ℚ) * (1 / 4)⌋⟩
      ∧ last_rgb_colors_init = List.replicate 24 ⟨0, 0, 0⟩) :=
  ⟨⟨by decide, by decide, by decide, by decide⟩,
    C4_smoothing_truncation (List.replicate 24 (RGBColor.mk 0 0 0))
      (List.replicate 24 (RGBColor.mk 3 4 5)) 0 (RGBColor.mk 0 0 0)
      (RGBColor.mk 3 4 5) (by decide) (by decide) (by decide) (by decide)
      (by decide) (by decide) (by decide) (by decide)⟩

/-- A color whose three channels are integers in the valid RGB range 0..255. -/
def inRange (c : RGBColor) : Prop :=
  0 ≤ c.red ∧ c.red ≤ 255 ∧ 0 ≤ c.green ∧ c.green ≤ 255
    ∧ 0 ≤ c.blue ∧ c.blue ≤ 255

instance (c : RGBColor) : Decidable (inRange c) := by
  unfold inRange
  infer_instance

lemma smoothChannel_range (α : ℚ) (a b : ℤ) (h0 : 0 ≤ α) (h1 : α ≤ 1)
    (ha0 : 0 ≤ a) (ha1 : a ≤ 255) (hb0 : 0 ≤ b) (hb1 : b ≤ 255) :
    0 ≤ smoothChannel α a b ∧ smoothChannel α a b ≤ 255 := by
  have c1 : (0 : ℚ) ≤ (a : ℚ) := by exact_mod_cast ha0
  have c2 : (0 : ℚ) ≤ (b : ℚ) := by exact_mod_cast hb0
  have c3 : (a : ℚ) ≤ 255 := by exact_mod_cast ha1
  have c4 : (b : ℚ) ≤ 255 := by exact_mod_cast hb1
  have hx0 : (0 : ℚ) ≤ (a : ℚ) * (1 - α) + (b : ℚ) * α := by
    have m1 : (0 : ℚ) ≤ (a : ℚ) * (1 - α) := mul_nonneg c1 (by linarith)
    have m2 : (0 : ℚ) ≤ (b : ℚ) * α := mul_nonneg c2 h0
    linarith
  have hx1 : (a : ℚ) * (1 - α) + (b : ℚ) * α ≤ 255 := by
    have m1 : (a : ℚ) * (1 - α) ≤ 255 * (1 - α) :=
      mul_le_mul_of_nonneg_right c3 (by linarith)
    have m2 : (b : ℚ) * α ≤ 255 * α := mul_le_mul_of_nonneg_right c4 h0
    nlinarith
  unfold smoothChannel
  rw [pyInt_eq_floor _ hx0]
  constructor
  · exact Int.floor_nonneg.mpr hx0
  · have : ⌊(a : ℚ) * (1 - α) + (b : ℚ) * α⌋ < 256 := by
      rw [Int.floor_lt]
      push_cast
      linarith
    omega

lemma smoothColor_inRange (α : ℚ) (a b : RGBColor) (h0 : 0 ≤ α) (h1 : α ≤ 1)
    (ha : inRange a) (hb : inRange b) : inRange (smoothColor α a b) := by
  rcases ha with ⟨ha1, ha2, ha3, ha4, ha5, ha6⟩
  rcases hb with ⟨hb1, hb2, hb3, hb4, hb5, hb6⟩
  have hr := smoothChannel_range α a.red b.red h0 h1 ha1 ha2 hb1 hb2
  have hg := smoothChannel_range α a.green b.green h0 h1 ha3 ha4 hb3 hb4
  have hbq := smoothChannel_range α a.blue b.blue h0 h1 ha5 ha6 hb5 hb6
  exact ⟨hr.1, hr.2, hg.1, hg.2, hbq.1, hbq.2⟩

lemma smoothTick_inRange (α : ℚ) (h0 : 0 ≤ α) (h1 : α ≤ 1) :
    ∀ (prev sampled : List RGBColor), (∀ c ∈ prev, inRange c) →
      (∀ c ∈ sampled, inRange c) →
      ∀ c ∈ smoothTick α prev sampled, inRange c := by
  intro prev
  induction prev with
  | nil => intro sampled _ _ c hc; simp [smoothTick] at hc
  | cons a as ih =>
    intro sampled hp hs c hc
    cases sampled with
    | nil => simp [smoothTick] at hc
    | cons b bs =>
      simp only [smoothTick, List.zipWith_cons_cons, List.mem_cons] at hc
      rcases hc with rfl | hc
      · exact smoothColor_inRange α a b h0 h1 (hp a (by simp))
          (hs b (by simp))
      · exact ih bs (fun x hx => hp x (by simp [hx]))
          (fun x hx => hs x (by simp [hx])) c hc

lemma smoothTick_length (α : ℚ) (prev sampled : List RGBColor)
    (hp : prev.length = 24) (hs : sampled.length = 24) :
    (smoothTick α prev sampled).length = 24 := by
  unfold smoothTick
  rw [List.length_zipWith, hp, hs]
  rfl

/-- C10: starting from the all-black seed, after any sequence of smoothing
ticks whose sampled colors have channels in 0..255, and for any smoothing
factor in [0,1], every channel of every one of the 24 persisted smoothed
colors is an integer in 0..255: the smoothing update preserves the
valid-RGB-range invariant of the persisted vector. -/
theorem C10_smoothing_preserves_range (α : ℚ) (h0 : 0 ≤ α) (h1 : α ≤ 1)
    (ticks : List (List RGBColor))
    (hticks : ∀ t ∈ ticks, t.length = 24 ∧ ∀ c ∈ t, inRange c) :
    (List.foldl (smoothTick α) last_rgb_colors_init ticks).length = 24
    ∧ ∀ c ∈ List.foldl (smoothTick α) last_rgb_colors_init ticks, inRange c := by
  suffices h : ∀ (acc : List RGBColor), acc.length = 24 → (∀ c ∈ acc, inRange c) →
      (List.foldl (smoothTick α) acc ticks).length = 24
      ∧ ∀ c ∈ List.foldl (smoothTick α) acc ticks, inRange c by
    apply h
    · simp [last_rgb_colors_init]
    · intro c hc
      rw [last_rgb_colors_init, List.mem_replicate] at hc
      rw [hc.2]
      decide
  induction ticks with
  | nil => intro acc hl hr; exact ⟨hl, hr⟩
  | cons t ts ih =>
    intro acc hl hr
    simp only [List.foldl_cons]
    have ht := hticks t (by simp)
    exact ih (fun s hs => hticks s (by simp [hs])) (smoothTick α acc t)
      (smoothTick_length α acc t hl ht.1)
      (smoothTick_inRange α h0 h1 acc t hr ht.2)

theorem C10_witness :
    ((0 : ℚ) ≤ 1 / 4 ∧ (1 / 4 : ℚ) ≤ 1
      ∧ ∀ t ∈ [List.replicate 24 (RGBColor.mk 10 200 30)],
          t.length = 24 ∧ ∀ c ∈ t, inRange c)
    ∧ ((List.foldl (smoothTick (1 / 4)) last_rgb_colors_init
          [List.replicate 24 (RGBColor.mk 10 200 30)]).length = 24
      ∧ ∀ c ∈ List.foldl (smoothTick (1 / 4)) last_rgb_colors_init
          [List.replicate 24 (RGBColor.mk 10 200 30)], inRange c) :=
  ⟨⟨by norm_num, by norm_num, by decide⟩,
    C10_smoothing_preserves_range (1 / 4) (by norm_num) (by norm_num)
      [List.replicate 24 (RGBColor.mk 10 200 30)] (by decide)⟩

/-- The radius computed by `analyze_and_set_colors` (source line 56):
`min(width, height) // 2` (Python floor division on ints). -/
def sampleRadius (width height : ℕ) : ℕ := min width height / 2

/-- The sample point of `analyze_and_set_colors` (source lines 60-61):
`x = width - int(width / 2 + radius * cos(angle))` and
`y = int(height / 2 + radius * sin(angle))`.  The cosine and sine values are
abstracted by the rationals `c` and `s`; `math.cos`/`math.sin` always return
floats in [-1, 1], which is the only property the bounds claim rests on. -/
def samplePoint (width height : ℕ) (c s : ℚ) : ℤ × ℤ :=
  ((width : ℤ) - pyInt ((width : ℚ) / 2 + (sampleRadius width height : ℚ) * c),
   pyInt ((height : ℚ) / 2 + (sampleRadius width height : ℚ) * s))

/-- C5: with the default geometry `width = height = 479` on a 480×480 frame
(radius 239), for every cosine/sine value in [-1, 1] the computed sample
coordinates used for the pixel lookup lie within `0 ≤ x < 480` and
`0 ≤ y < 480`. -/
theorem C5_sample_in_bounds (c s : ℚ) (hc0 : -1 ≤ c) (hc1 : c ≤ 1)
    (hs0 : -1 ≤ s) (hs1 : s ≤ 1) :
    0 ≤ (samplePoint 479 479 c s).1 ∧ (samplePoint 479 479 c s).1 < 480
    ∧ 0 ≤ (samplePoint 479 479 c s).2 ∧ (samplePoint 479 479 c s).2 < 480 := by
  have hrad : ((sampleRadius 479 479 : ℕ) : ℚ) = 239 := by norm_num [sampleRadius]
  have hx0 : (0 : ℚ) ≤ (479 : ℚ) / 2 + 239 * c := by nlinarith
  have hx1 : (479 : ℚ) / 2 + 239 * c < 479 := by nlinarith
  have hy0 : (0 : ℚ) ≤ (479 : ℚ) / 2 + 239 * s := by nlinarith
  have hy1 : (479 : ℚ) / 2 + 239 * s < 479 := by nlinarith
  have hfx0 : 0 ≤ ⌊(479 : ℚ) / 2 + 239 * c⌋ := Int.floor_nonneg.mpr hx0
  have hfx1 : ⌊(479 : ℚ) / 2 + 239 * c⌋ < 479 := by
    rw [Int.floor_lt]
    push_cast
    linarith
  have hfy0 : 0 ≤ ⌊(479 : ℚ) / 2 + 239 * s⌋ := Int.floor_nonneg.mpr hy0
  have hfy1 : ⌊(479 : ℚ) / 2 + 239 * s⌋ < 479 := by
    rw [Int.floor_lt]
    push_cast
    linarith
  unfold samplePoint
  rw [hrad]
  push_cast
  rw [pyInt_eq_floor _ hx0, pyInt_eq_floor _ hy0]
  refine ⟨by omega, by omega, by omega, by omega⟩

theorem C5_witness :
    ((-1 : ℚ) ≤ 1 ∧ (1 : ℚ) ≤ 1 ∧ (-1 : ℚ) ≤ 0 ∧ (0 : ℚ) ≤ 1)
    ∧ (0 ≤ (samplePoint 479 479 1 0).1 ∧ (samplePoint 479 479 1 0).1 < 480
      ∧ 0 ≤ (samplePoint 479 479 1 0).2 ∧ (samplePoint 479 479 1 0).2 < 480) :=
  ⟨⟨by norm_num, by norm_num, by norm_num, by norm_num⟩,
    C5_sample_in_bounds 1 0 (by norm_num) (by norm_num) (by norm_num) (by norm_num)⟩

/-- Models `LEDController.connect_to_openrgb` (src/led_controller_openrgb.py
lines 35-43): `for attempt in range(2): try: return OpenRGBClient() except:
... time.sleep(5)` then `return None`.  The success of the `OpenRGBClient()`
construction on attempt `i` is abstracted by the oracle `succeeds i`; the
result is the index of the successful attempt, `none` when both fail. -/
def connect_to_openrgb (succeeds : ℕ → Bool) : Option ℕ :=
  if succeeds 0 then some 0 else if succeeds 1 then some 1 else none

/-- The `OpenRGBClient()` construction attempts actually made by
`connect_to_openrgb`: the loop returns from attempt 0 on success, otherwise
attempt 1 is also made. -/
def connectAttempts (succeeds : ℕ → Bool) : ℕ :=
  if succeeds 0 then 1 else 2

/-- The `time.sleep` delays (in seconds) executed by `connect_to_openrgb`,
in order: the `except` branch sleeps 5 seconds after every failed attempt —
in particular a fixed 5-second delay between the first failure and the
retry. -/
def connectSleeps (succeeds : ℕ → Bool) : List ℕ :=
  if succeeds 0 then [] else if succeeds 1 then [5] else [5, 5]

/-- `self.enabled` at the end of `LEDController.__init__` (source lines
15-26): seeded `True`, reset to `False` when `connect_to_openrgb` returned
`None`. -/
def initEnabled (succeeds : ℕ → Bool) : Bool :=
  (connect_to_openrgb succeeds).isSome

/-- The operations that run after initialization and can touch
`self.enabled`: the per-tick `analyze_and_set_colors` (source lines 50-83)
and `LEDWorker.set_colors` (lines 100-110) only read it; `stop_led`
(line 85-88, the `atexit` hook) writes `False`.  No operation ever writes
`True` after `__init__`. -/
inductive LedEvent
  | analyzeTick
  | setColorsCall
  | stopLed

def stepEnabled (e : Bool) : LedEvent → Bool
  | .analyzeTick => e
  | .setColorsCall => e
  | .stopLed => false

/-- A zone of an OpenRGB device as seen by `LEDWorker.set_colors`. -/
structure LedZone where
  name : String
  deriving Repr, DecidableEq

/-- An OpenRGB device as seen by `LEDWorker.set_colors`. -/
structure LedDevice where
  name : String
  zones : List LedZone
  deriving Repr, DecidableEq

/-- The `set_color` writes issued inside the `try` of `set_colors` (source
lines 103-108) for the enabled case: devices are scanned in order; a device
named "Corsair Commander Core" whose zones include one named "Pump" gets one
write per color; if such a device has no "Pump" zone, `next(...)` raises
`StopIteration`, which aborts the remaining iteration (the exception is
caught and logged by the surrounding handler).  LED arrays are assumed large
enough for the 24 writes, as they are on the target hardware. -/
def pumpWrites : List LedDevice → ℕ → ℕ
  | [], _ => 0
  | d :: ds, n =>
      if d.name = "Corsair Commander Core" then
        if d.zones.any (fun z => z.name = "Pump") then n + pumpWrites ds n
        else 0
      else pumpWrites ds n

/-- Mirrors `LEDWorker.set_colors` (source lines 100-110), counting the
backend writes it performs: `if not self.controller.enabled: return` issues
none; otherwise the devices are scanned as in `pumpWrites`. -/
def set_colors_writes (enabled : Bool) (devices : List LedDevice)
    (numColors : ℕ) : ℕ :=
  if enabled then pumpWrites devices numColors else 0

lemma stepEnabled_false (e : LedEvent) : stepEnabled false e = false := by
  cases e <;> rfl

lemma foldl_stepEnabled_false (events : List LedEvent) :
    List.foldl stepEnabled false events = false := by
  induction events with
  | nil => rfl
  | cons e es ih => rw [List.foldl_cons, stepEnabled_false, ih]

/-- C6: if the first `OpenRGBClient()` attempt fails, the connect logic
retries exactly once more (two attempts in total) after a fixed 5-second
delay; if both attempts fail the controller starts disabled, stays disabled
through every subsequent operation of the process run, and every subsequent
`set_colors` call is a no-op performing zero backend writes. -/
theorem C6_connect_retry_then_disable (succeeds : ℕ → Bool)
    (h0 : succeeds 0 = false) (h1 : succeeds 1 = false) :
    (∀ g : ℕ → Bool, g 0 = false →
      connectAttempts g = 2 ∧ (connectSleeps g).head? = some 5)
    ∧ connect_to_openrgb succeeds = none
    ∧ initEnabled succeeds = false
    ∧ (∀ events : List LedEvent,
        List.foldl stepEnabled (initEnabled succeeds) events = false)
    ∧ (∀ (events : List LedEvent) (devices : List LedDevice) (n : ℕ),
        set_colors_writes
          (List.foldl stepEnabled (initEnabled succeeds) events) devices n
          = 0) := by
  have hconn : connect_to_openrgb succeeds = none := by
    unfold connect_to_openrgb
    rw [h0, h1]
    rfl
  have hinit : initEnabled succeeds = false := by
    unfold initEnabled
    rw [hconn]
    rfl
  refine ⟨?_, hconn, hinit, ?_, ?_⟩
  · intro g hg
    constructor
    · unfold connectAttempts
      rw [hg]
      rfl
    · unfold connectSleeps
      rw [hg]
      cases hg1 : g 1 <;> rfl
  · intro events
    rw [hinit, foldl_stepEnabled_false]
  · intro events devices n
    rw [hinit, foldl_stepEnabled_false]
    rfl

theorem C6_witness :
    ((fun _ : ℕ => false) 0 = false ∧ (fun _ : ℕ => false) 1 = false)
    ∧ ((∀ g : ℕ → Bool, g 0 = false →
          connectAttempts g = 2 ∧ (connectSleeps g).head? = some 5)
      ∧ connect_to_openrgb (fun _ => false) = none
      ∧ initEnabled (fun _ => false) = false
      ∧ (∀ events : List LedEvent,
          List.foldl stepEnabled (initEnabled (fun _ => false)) events = false)
      ∧ (∀ (events : List LedEvent) (devices : List LedDevice) (n : ℕ),
          set_colors_writes
            (List.foldl stepEnabled (initEnabled (fun _ => false)) events)
            devices n = 0)) :=
  ⟨⟨rfl, rfl⟩, C6_connect_retry_then_disable (fun _ => false) rfl rfl⟩

/-- The saturation boost of `analyze_and_set_colors` (source line 67):
`min(255, int(saturation * saturation_factor))` with the default factor 1.25.
For `s ≤ 255` the float product `s * 1.25 = 5s/4` is exact, so `int()` of it
is `5 * s / 4` in integer arithmetic. -/
def satBoost (s : ℕ) : ℕ := min 255 (5 * s / 4)

/-- The sextant table of the HSV→RGB conversion: which of the intermediate
values `v`, `p`, `q`, `t` lands in each RGB channel, by hue region 0..5. -/
def hsvSelect (k : ℕ) (vq p q t : ℚ) : ℚ × ℚ × ℚ :=
  match k with
  | 0 => (vq, t, p)
  | 1 => (q, vq, p)
  | 2 => (p, vq, t)
  | 3 => (p, q, vq)
  | 4 => (t, p, vq)
  | _ => (vq, p, q)

/-- Models the `QColor` HSV→RGB conversion used by `analyze_and_set_colors`
(source lines 63-69: `setHsv` then reading `red/green/blue`), at the
user-facing scale: hue `h` in degrees, `s` and `v` in 0..255.  This is the
standard sextant algorithm implemented in Qt's qcolor.cpp; Qt's internal
16-bit fixed-point scaling is elided, the 0..255 range property being
insensitive to it. -/
def hsvChannels (h : ℚ) (s v : ℕ) : ℤ × ℤ × ℤ :=
  let sq : ℚ := s / 255
  let vq : ℚ := v / 255
  let f : ℚ := Int.fract (h / 60)
  let c : ℚ × ℚ × ℚ :=
    hsvSelect ((⌊h / 60⌋ % 6).toNat) vq (vq * (1 - sq)) (vq * (1 - sq * f))
      (vq * (1 - sq * (1 - f)))
  (round (255 * c.1), round (255 * c.2.1), round (255 * c.2.2))

lemma round_unit (x : ℚ) (h0 : 0 ≤ x) (h1 : x ≤ 1) :
    0 ≤ round (255 * x) ∧ round (255 * x) ≤ 255 := by
  rw [round_eq]
  constructor
  · apply Int.floor_nonneg.mpr
    linarith
  · have hlt : ⌊255 * x + 1 / 2⌋ < 256 := by
      rw [Int.floor_lt]
      push_cast
      linarith
    omega

lemma hsvSelect_range (k : ℕ) (vq p q t : ℚ)
    (hv0 : 0 ≤ vq) (hv1 : vq ≤ 1) (hp0 : 0 ≤ p) (hp1 : p ≤ 1)
    (hq0 : 0 ≤ q) (hq1 : q ≤ 1) (ht0 : 0 ≤ t) (ht1 : t ≤ 1) :
    (0 ≤ (hsvSelect k vq p q t).1 ∧ (hsvSelect k vq p q t).1 ≤ 1)
    ∧ (0 ≤ (hsvSelect k vq p q t).2.1 ∧ (hsvSelect k vq p q t).2.1 ≤ 1)
    ∧ (0 ≤ (hsvSelect k vq p q t).2.2 ∧ (hsvSelect k vq p q t).2.2 ≤ 1) := by
  rcases k with _ | _ | _ | _ | _ | k <;> simp [hsvSelect] <;> tauto

lemma hsvChannels_range (h : ℚ) (s v : ℕ) (hs : s ≤ 255) (hv : v ≤ 255) :
    (0 ≤ (hsvChannels h s v).1 ∧ (hsvChannels h s v).1 ≤ 255)
    ∧ (0 ≤ (hsvChannels h s v).2.1 ∧ (hsvChannels h s v).2.1 ≤ 255)
    ∧ (0 ≤ (hsvChannels h s v).2.2 ∧ (hsvChannels h s v).2.2 ≤ 255) := by
  have hsq0 : (0 : ℚ) ≤ (s : ℚ) / 255 := by positivity
  have hsq1 : (s : ℚ) / 255 ≤ 1 := by
    rw [div_le_one (by norm_num)]
    exact_mod_cast hs
  have hvq0 : (0 : ℚ) ≤ (v : ℚ) / 255 := by positivity
  have hvq1 : (v : ℚ) / 255 ≤ 1 := by
    rw [div_le_one (by norm_num)]
    exact_mod_cast hv
  have hf0 : (0 : ℚ) ≤ Int.fract (h / 60) := Int.fract_nonneg _
  have hf1 : Int.fract (h / 60) ≤ 1 := le_of_lt (Int.fract_lt_one _)
  have hp0 : (0 : ℚ) ≤ (v : ℚ) / 255 * (1 - (s : ℚ) / 255) :=
    mul_nonneg hvq0 (by linarith)
  have hp1 : (v : ℚ) / 255 * (1 - (s : ℚ) / 255) ≤ 1 :=
    mul_le_one₀ hvq1 (by linarith) (by linarith)
  have hm0 : (0 : ℚ) ≤ (s : ℚ) / 255 * Int.fract (h / 60) := mul_nonneg hsq0 hf0
  have hm1 : (s : ℚ) / 255 * Int.fract (h / 60) ≤ 1 := mul_le_one₀ hsq1 hf0 hf1
  have hq0 : (0 : ℚ) ≤ (v : ℚ) / 255 * (1 - (s : ℚ) / 255 * Int.fract (h / 60)) :=
    mul_nonneg hvq0 (by linarith)
  have hq1 : (v : ℚ) / 255 * (1 - (s : ℚ) / 255 * Int.fract (h / 60)) ≤ 1 :=
    mul_le_one₀ hvq1 (by linarith) (by linarith)
  have hn0 : (0 : ℚ) ≤ (s : ℚ) / 255 * (1 - Int.fract (h / 60)) :=
    mul_nonneg hsq0 (by linarith)
  have hn1 : (s : ℚ) / 255 * (1 - Int.fract (h / 60)) ≤ 1 :=
    mul_le_one₀ hsq1 (by linarith) (by linarith)
  have ht0 : (0 : ℚ)
      ≤ (v : ℚ) / 255 * (1 - (s : ℚ) / 255 * (1 - Int.fract (h / 60))) :=
    mul_nonneg hvq0 (by linarith)
  have ht1 : (v : ℚ) / 255 * (1 - (s : ℚ) / 255 * (1 - Int.fract (h / 60))) ≤ 1 :=
    mul_le_one₀ hvq1 (by linarith) (by linarith)
  have hsel := hsvSelect_range ((⌊h / 60⌋ % 6).toNat) ((v : ℚ) / 255)
    ((v : ℚ) / 255 * (1 - (s : ℚ) / 255))
    ((v : ℚ) / 255 * (1 - (s : ℚ) / 255 * Int.fract (h / 60)))
    ((v : ℚ) / 255 * (1 - (s : ℚ) / 255 * (1 - Int.fract (h / 60))))
    hvq0 hvq1 hp0 hp1 hq0 hq1 ht0 ht1
  simp only [hsvChannels]
  exact ⟨round_unit _ hsel.1.1 hsel.1.2, round_unit _ hsel.2.1.1 hsel.2.1.2,
    round_unit _ hsel.2.2.1 hsel.2.2.2⟩

/-- C8: for every sampled pixel color converted to HSV with saturation and
value in 0..255 (as `QColor.toHsv` guarantees) and the default
`saturation_factor` 1.25, the saturation-boost step — multiply the
saturation by the factor, clamp at 255, convert back to RGB — never produces
an output channel value greater than 255 or less than 0. -/
theorem C8_saturation_boost_safe (h : ℚ) (s v : ℕ) (hs : s ≤ 255)
    (hv : v ≤ 255) :
    satBoost s ≤ 255
    ∧ (0 ≤ (hsvChannels h (satBoost s) v).1
        ∧ (hsvChannels h (satBoost s) v).1 ≤ 255)
    ∧ (0 ≤ (hsvChannels h (satBoost s) v).2.1
        ∧ (hsvChannels h (satBoost s) v).2.1 ≤ 255)
    ∧ (0 ≤ (hsvChannels h (satBoost s) v).2.2
        ∧ (hsvChannels h (satBoost s) v).2.2 ≤ 255) :=
  ⟨min_le_left _ _, hsvChannels_range h (satBoost s) v (min_le_left _ _) hv⟩

theorem C8_witness :
    ((100 : ℕ) ≤ 255 ∧ (200 : ℕ) ≤ 255)
    ∧ (satBoost 100 ≤ 255
      ∧ (0 ≤ (hsvChannels 30 (satBoost 100) 200).1
          ∧ (hsvChannels 30 (satBoost 100) 200).1 ≤ 255)
      ∧ (0 ≤ (hsvChannels 30 (satBoost 100) 200).2.1
          ∧ (hsvChannels 30 (satBoost 100) 200).2.1 ≤ 255)
      ∧ (0 ≤ (hsvChannels 30 (satBoost 100) 200).2.2
          ∧ (hsvChannels 30 (satBoost 100) 200).2.2 ≤ 255)) :=
  ⟨⟨by decide, by decide⟩, C8_saturation_boost_safe 30 100 200 (by decide) (by decide)⟩
